import Mathlib

/-!
Verification of the Voco cognitive-engine turn orchestrator
(`services/cognitive-engine/src`).  Python sources are shallowly embedded:
message objects become an inductive `Msg`, Python dicts with string keys and
string values become association lists, the token-budget trimmer
(`graph/token_guard.py`), the graph nodes (`graph/nodes.py`), the router
(`graph/router.py`), the background job queue (`graph/background_worker.py`),
and the WebSocket turn pipeline (`main.py`) become executable functions.
External nondeterminism (LLM responses, client decisions, job ids) is
universally quantified.
-/

namespace Voco

/-! ## String helpers modelling Python `str` methods

Python `name.startswith("propose_")`, `"timed out" in s`, and `s.lower()` are
modelled on the character lists underlying `String`, which keeps them
kernel-computable. -/

/-- Model of Python `s.startswith(pre)`. -/
def strStartsWith (s pre : String) : Bool :=
  pre.data.isPrefixOf s.data

/-- Contiguous-sublist test on character lists. -/
def listIsInfixOf (pat : List Char) : List Char → Bool
  | [] => pat.isEmpty
  | c :: rest => pat.isPrefixOf (c :: rest) || listIsInfixOf pat rest

/-- Model of Python `pat in s` (substring containment). -/
def strContains (s pat : String) : Bool :=
  listIsInfixOf pat.data s.data

/-- Model of Python `s.lower()` (character-wise lowercasing). -/
def strLower (s : String) : String :=
  ⟨s.data.map Char.toLower⟩

/-! ## Messages

`langchain_core.messages`: `HumanMessage`, `AIMessage` (with optional
`tool_calls`), `ToolMessage` (with `tool_call_id`), `SystemMessage`.
A tool call carries `{name, args, id}`; args is a string-keyed dict, modelled
as an association list. -/

/-- A Python dict with string keys and string values. -/
abbrev ArgDict := List (String × String)

/-- Model of Python `d.get(k, default)` on an `ArgDict`. -/
def dget (d : ArgDict) (k default : String) : String :=
  match d.find? (fun e => e.1 == k) with
  | some e => e.2
  | none => default

/-- A tool call as carried on an `AIMessage`: `{name, args, id}`. -/
structure ToolCall where
  name : String
  args : ArgDict
  id : String
deriving Repr, DecidableEq

/-- The LangChain message variants used by the engine. -/
inductive Msg where
  | human (text : String)
  | assistant (text : String) (tool_calls : List ToolCall)
  | tool (call_id : String) (content : String)
  | system (text : String)
deriving Repr, DecidableEq

/-- Whether a message is a `ToolMessage` (`isinstance(m, ToolMessage)`). -/
def Msg.isTool : Msg → Bool
  | .tool _ _ => true
  | _ => false

/-! ## Token budget trimmer (`graph/token_guard.py`)

`trim_messages_to_budget(system_prompt, messages, model, max_tokens)`:
counts tokens of `[system_dict] + [msg_to_dict(m) for m in messages]`; if
under budget returns the input unchanged; otherwise protects the last 10
messages and the last 4 `ToolMessage`s and removes the oldest unprotected
messages one at a time (each time subtracting the own token count of that
message) until the running total is under budget.

`litellm.token_counter` is an external library (with a chars-div-4 fallback
coded in `_count_tokens`), so the counter is a parameter
`count : String → List MsgDict → Nat` taking the model tag and the dict
list; `fallbackCount` below is the coded fallback. The running Python
`total_tokens` is an `int` that may go negative, hence `Int` here. -/

/-- A litellm-style message dict `{role, content}` (`_msg_to_dict`). -/
abbrev MsgDict := String × String

/-- `_msg_to_dict`: map a message to its `{role, content}` dict. -/
def msgToDict : Msg → MsgDict
  | .human t => ("user", t)
  | .assistant t _ => ("assistant", t)
  | .tool _ c => ("tool", c)
  | .system t => ("system", t)

/-- The coded fallback counter: `sum(len(content)) // 4`. -/
def fallbackCount (_model : String) (ds : List MsgDict) : Nat :=
  (ds.map (fun d => d.2.length)).sum / 4

/-- `_DEFAULT_MAX_TOKENS` in `token_guard.py`. -/
def DEFAULT_MAX_TOKENS : Nat := 160000

/-- `_KEEP_LAST_TOOL_MSGS`. -/
def KEEP_LAST_TOOL_MSGS : Nat := 4

/-- `_KEEP_LAST_CONV_MSGS`. -/
def KEEP_LAST_CONV_MSGS : Nat := 10

/-- Indices of the `ToolMessage`s in the list (`tool_indices`). -/
def toolIndices (msgs : List Msg) : List Nat :=
  (List.range msgs.length).filter (fun i => (msgs.getD i (.system "")).isTool)

/-- `tool_indices[-_KEEP_LAST_TOOL_MSGS:]`: the last 4 tool indices. -/
def lastToolIndices (msgs : List Msg) : List Nat :=
  (toolIndices msgs).drop ((toolIndices msgs).length - KEEP_LAST_TOOL_MSGS)

/-- The protected index set: the last 10 indices of any kind plus the last
4 tool indices (the system prompt is not in the list at all). -/
def isProtected (msgs : List Msg) (i : Nat) : Bool :=
  (msgs.length ≤ i + KEEP_LAST_CONV_MSGS) || (lastToolIndices msgs).contains i

/-- `trimmable`: indices of `range(len(all_msgs))` not protected, ascending. -/
def trimmableIndices (msgs : List Msg) : List Nat :=
  (List.range msgs.length).filter (fun i => !isProtected msgs i)

/-- The removal loop: walk `trimmable` in order; stop as soon as the running
total is within budget, otherwise remove the index and subtract that
own token count of that message. Returns the removed indices. -/
def trimLoop (countOne : Nat → Int) (maxTokens : Int) :
    List Nat → Int → List Nat
  | [], _ => []
  | i :: rest, total =>
    if total ≤ maxTokens then []
    else i :: trimLoop countOne maxTokens rest (total - countOne i)

/-- The set of removed indices computed by `trim_messages_to_budget` once the
input is known to be over budget. -/
def removedIndices (count : String → List MsgDict → Nat) (model : String)
    (msgs : List Msg) (maxTokens : Nat) (total : Int) : List Nat :=
  trimLoop
    (fun i => (count model [msgToDict (msgs.getD i (.system ""))] : Int))
    (maxTokens : Int) (trimmableIndices msgs) total

/-- `[m for i, m in enumerate(all_msgs) if i not in removed]`, with the
index counter made explicit. -/
def filterIdxFrom (p : Nat → Bool) : List Msg → Nat → List Msg
  | [], _ => []
  | m :: ms, i =>
    if p i then m :: filterIdxFrom p ms (i + 1) else filterIdxFrom p ms (i + 1)

/-- `trim_messages_to_budget(system_prompt, messages, model, max_tokens)`.
In the source `model` defaults to `"claude-sonnet-4-5-20250929"` and
`max_tokens` to `_DEFAULT_MAX_TOKENS`. -/
def trim_messages_to_budget (count : String → List MsgDict → Nat)
    (system_prompt : String) (messages : List Msg) (model : String)
    (max_tokens : Nat) : List Msg :=
  let systemDict : MsgDict := ("system", system_prompt)
  let total : Int := (count model (systemDict :: messages.map msgToDict) : Int)
  if total ≤ (max_tokens : Int) then messages
  else
    let removed := removedIndices count model messages max_tokens total
    filterIdxFrom (fun i => !removed.contains i) messages 0

/-! ## Graph state and orchestrator node (`graph/state.py`, `graph/nodes.py`)

`VocoState` is a LangGraph `TypedDict`; node functions return a partial
update dict that LangGraph merges into the state (`messages` uses the
append reducer; an absent key leaves the field unchanged; a key present
with `None` overwrites with `None`). -/

/-- The graph-state fields relevant to routing and tool dispatch.
Absent `NotRequired` keys are the empty list / `none`. -/
structure VocoState where
  messages : List Msg
  barge_in_detected : Bool
  pending_mcp_action : Option ToolCall
  pending_proposals : List ArgDict
  pending_commands : List ArgDict
  proposal_decisions : List ArgDict
  command_decisions : List ArgDict
deriving Repr, DecidableEq

/-- An LLM response: text plus `tool_calls`. -/
structure AIResponse where
  text : String
  tool_calls : List ToolCall
deriving Repr, DecidableEq

/-- A call routed to `command_proposals`: `tc["name"] == "propose_command"`. -/
def isCommandCall (tc : ToolCall) : Bool :=
  tc.name == "propose_command"

/-- A call routed to `file_proposals`: any other name starting `propose_`. -/
def isFileProposalCall (tc : ToolCall) : Bool :=
  !(tc.name == "propose_command") && strStartsWith tc.name "propose_"

/-- A non-proposal call (candidate for `pending_mcp_action`). -/
def isMcpCall (tc : ToolCall) : Bool :=
  !(strStartsWith tc.name "propose_")

/-- The partition loop in `orchestrator_node`: file proposals, command
proposals, and the first remaining (non-proposal) call; later non-proposal
calls leave `mcp_action` untouched, i.e. are dropped. -/
def partitionCalls : List ToolCall →
    List ToolCall × List ToolCall × Option ToolCall
  | [] => ([], [], none)
  | tc :: rest =>
    let (cmds, files, mcp) := partitionCalls rest
    if isCommandCall tc then (tc :: cmds, files, mcp)
    else if strStartsWith tc.name "propose_" then (cmds, tc :: files, mcp)
    else (cmds, files, some tc)

/-- The update dict returned by `orchestrator_node`: `some` marks a key
present in the dict.  `pending_mcp_action` is `some mcp` (key present,
possibly holding `None`) exactly when the response carries tool calls;
the two pending lists are only set when their partition is non-empty. -/
structure OrchUpdate where
  message : Msg
  barge_in_detected : Bool
  pending_proposals : Option (List ArgDict)
  pending_commands : Option (List ArgDict)
  pending_mcp_action : Option (Option ToolCall)
deriving Repr, DecidableEq

/-- `orchestrator_node`: append the assistant response, clear the barge-in
flag, and when the response carries tool calls partition them. -/
def orchestrator_node (resp : AIResponse) : OrchUpdate :=
  let (cmds, files, mcp) := partitionCalls resp.tool_calls
  if resp.tool_calls.isEmpty then
    { message := .assistant resp.text resp.tool_calls
      barge_in_detected := false
      pending_proposals := none
      pending_commands := none
      pending_mcp_action := none }
  else
    { message := .assistant resp.text resp.tool_calls
      barge_in_detected := false
      pending_proposals := if files.isEmpty then none else some (files.map (·.args))
      pending_commands := if cmds.isEmpty then none else some (cmds.map (·.args))
      pending_mcp_action := some mcp }

/-- The LangGraph merge of an orchestrator update into the state: the message
is appended by the `add_messages` reducer; an absent key keeps the old
field value. -/
def applyOrchUpdate (st : VocoState) (u : OrchUpdate) : VocoState :=
  { st with
    messages := st.messages ++ [u.message]
    barge_in_detected := u.barge_in_detected
    pending_proposals := u.pending_proposals.getD st.pending_proposals
    pending_commands := u.pending_commands.getD st.pending_commands
    pending_mcp_action := u.pending_mcp_action.getD st.pending_mcp_action }

/-- `orchestrator_node` followed by the LangGraph merge. -/
def runOrchestrator (st : VocoState) (resp : AIResponse) : VocoState :=
  applyOrchUpdate st (orchestrator_node resp)

/-! ## Router (`graph/router.py`, `_route_after_orchestrator`) -/

/-- The routing targets of the conditional edge after the orchestrator. -/
inductive Route where
  | orchestrator_node
  | proposal_review_node
  | command_review_node
  | mcp_gateway_node
  | END
deriving Repr, DecidableEq

/-- `_route_after_orchestrator`: barge-in, then proposals, then commands,
then the pending MCP action, else `END`.  Python truthiness: a list is
truthy iff non-empty; the `pending_mcp_action` dict is truthy iff present
(tool-call dicts are never empty). -/
def route_after_orchestrator (st : VocoState) : Route :=
  if st.barge_in_detected then .orchestrator_node
  else if !st.pending_proposals.isEmpty then .proposal_review_node
  else if !st.pending_commands.isEmpty then .command_review_node
  else if st.pending_mcp_action.isSome then .mcp_gateway_node
  else .END

/-! ## HITL review nodes (`graph/nodes.py`)

`proposal_review_node` and `command_review_node` run after an
`interrupt_before` pause.  Each builds one summary `ToolMessage` whose
`tool_call_id` is recovered by scanning the message log backwards for the
last `AIMessage` with tool calls and taking its first `propose_*`
(respectively first `propose_command`) call. -/

/-- The tool calls of the last `AIMessage` carrying tool calls, if any. -/
def lastAIWithCalls (log : List Msg) : Option (List ToolCall) :=
  log.reverse.findSome? (fun m =>
    match m with
    | .assistant _ tcs => if tcs.isEmpty then none else some tcs
    | _ => none)

/-- The `tool_call_id` used by `proposal_review_node`: the first
`propose_*` call of the last tool-calling assistant, defaulting to
`"proposal-review"`. -/
def proposalReviewCallId (log : List Msg) : String :=
  match lastAIWithCalls log with
  | none => "proposal-review"
  | some tcs =>
    match tcs.find? (fun tc => strStartsWith tc.name "propose_") with
    | some tc => tc.id
    | none => "proposal-review"

/-- The `tool_call_id` used by `command_review_node`: the first
`propose_command` call of the last tool-calling assistant, defaulting to
`"command-review"`. -/
def commandReviewCallId (log : List Msg) : String :=
  match lastAIWithCalls log with
  | none => "command-review"
  | some tcs =>
    match tcs.find? (fun tc => tc.name == "propose_command") with
    | some tc => tc.id
    | none => "command-review"

/-- `decision_map.get(pid, "unknown")` in `proposal_review_node`, where
`decision_map = {d["proposal_id"]: d["status"]}` (a dict comprehension, so
a duplicate id keeps the last entry). -/
def proposalStatusFor (decisions : List ArgDict) (pid : String) : String :=
  match decisions.reverse.find? (fun d => dget d "proposal_id" "" == pid) with
  | some d => dget d "status" ""
  | none => "unknown"

/-- One summary line per proposal: `- {file_path}: {status}`. -/
def proposalReviewLine (decisions : List ArgDict) (p : ArgDict) : String :=
  "- " ++ dget p "file_path" "?" ++ ": "
    ++ proposalStatusFor decisions (dget p "proposal_id" "?")

/-- The summary `ToolMessage` content built by `proposal_review_node`. -/
def proposalSummary (proposals decisions : List ArgDict) : String :=
  let lines := proposals.map (proposalReviewLine decisions)
  if lines.isEmpty then "No proposals to review."
  else "Proposal review results:\n" ++ String.intercalate "\n" lines

/-- The decision dict for one command (`decision_map.get(cid, {})`). -/
def commandDecisionFor (decisions : List ArgDict) (cid : String) : ArgDict :=
  match decisions.reverse.find? (fun d => dget d "command_id" "" == cid) with
  | some d => d
  | none => []

/-- One summary line per command, including captured output when present. -/
def commandReviewLine (decisions : List ArgDict) (c : ArgDict) : String :=
  let d := commandDecisionFor decisions (dget c "command_id" "?")
  let status := dget d "status" "unknown"
  let output := dget d "output" ""
  let line := "- `" ++ dget c "command" "?" ++ "`: " ++ status
  if output == "" then line else line ++ "\n  Output: " ++ output

/-- The summary `ToolMessage` content built by `command_review_node`. -/
def commandSummary (commands decisions : List ArgDict) : String :=
  let lines := commands.map (commandReviewLine decisions)
  if lines.isEmpty then "No commands to review."
  else "Command execution results:\n" ++ String.intercalate "\n" lines

/-- `proposal_review_node` applied to the state (summary `ToolMessage`
appended by the reducer; both pending lists it owns are cleared). -/
def proposal_review_node (st : VocoState) : VocoState :=
  { st with
    messages := st.messages ++
      [.tool (proposalReviewCallId st.messages)
        (proposalSummary st.pending_proposals st.proposal_decisions)]
    pending_proposals := []
    proposal_decisions := [] }

/-- `command_review_node` applied to the state. -/
def command_review_node (st : VocoState) : VocoState :=
  { st with
    messages := st.messages ++
      [.tool (commandReviewCallId st.messages)
        (commandSummary st.pending_commands st.command_decisions)]
    pending_commands := []
    command_decisions := [] }

/-! ## HITL decision handling in the turn pipeline (`main.py`)

`_receive_filtered(expected_type, timeout)` returns `{}` when the deadline
passes (and the `asyncio.TimeoutError` path in `_on_turn_end` equally
leaves `decisions = []`), so on timeout `decisions = {}.get("decisions",
[]) = []`. -/

/-- The decision list the pipeline resumes with after a HITL timeout. -/
def hitlTimeoutDecisions : List ArgDict := []

/-- `HITL_PROPOSAL_TIMEOUT` (seconds) from `constants.py`. -/
def HITL_PROPOSAL_TIMEOUT : Nat := 120

/-- `HITL_COMMAND_TIMEOUT` (seconds) from `constants.py`. -/
def HITL_COMMAND_TIMEOUT : Nat := 120

/-- A JSON-RPC request sent to the client over the WebSocket. -/
structure Rpc where
  id : String
  method : String
  params : ArgDict
deriving Repr, DecidableEq

/-- The write-file dispatch loop after a proposal decision: for each
proposal whose decision is `approved` and whose action is `create_file`,
send a `local/write_file` JSON-RPC (`decision_map.get(pid, {})`; a dict
keeps the last entry for a duplicate id).  The OS-dependent
absolutization of a relative `file_path` via `os.path.join` is elided:
the params carry the raw path. -/
def writeFileRpcs (proposals decisions : List ArgDict) (projectPath : String) :
    List Rpc :=
  proposals.filterMap (fun p =>
    let pid := dget p "proposal_id" ""
    let d :=
      match decisions.reverse.find? (fun d => dget d "proposal_id" "" == pid) with
      | some d => d
      | none => []
    if dget d "status" "" == "approved" && dget p "action" "" == "create_file" then
      some { id := "write_" ++ pid
             method := "local/write_file"
             params := [("file_path", dget p "file_path" ""),
                        ("content", dget p "content" ""),
                        ("project_root", projectPath)] }
    else none)

/-- The execute-command dispatch loop after a command decision: for each
approved decision whose `command_id` matches a pending command, send a
`local/execute_command` JSON-RPC. -/
def execCommandRpcs (commands decisions : List ArgDict) (projectPath : String) :
    List Rpc :=
  decisions.filterMap (fun d =>
    if !(dget d "status" "" == "approved") then none
    else
      match commands.find? (fun c => dget c "command_id" "" == dget d "command_id" "") with
      | none => none
      | some c =>
        some { id := "cmd_" ++ dget d "command_id" ""
               method := "local/execute_command"
               params := [("command", dget c "command" ""),
                          ("project_path", dget c "project_path" projectPath)] })

/-! ## Pending-RPC future table (`main.py`)

`_pending_rpc_futures : dict[str, asyncio.Future]`.  A future is either
still pending or already resolved (`future.done()`). -/

/-- The state of one pending-RPC future. -/
inductive FutureState where
  | pending
  | resolved (raw : String)
deriving Repr, DecidableEq

/-- The per-session pending-RPC table, keyed by `call_id`. -/
abbrev RpcTable := List (String × FutureState)

/-- The `mcp_result` / raw JSON-RPC reply branch of the main inbound loop:
`future = _pending_rpc_futures.get(msg_id); if future and not
future.done(): future.set_result(raw)`. -/
def handleMcpResultMainLoop (table : RpcTable) (msgId raw : String) : RpcTable :=
  match table.find? (fun e => e.1 == msgId) with
  | some (_, .pending) =>
    table.map (fun e => if e.1 == msgId then (e.1, .resolved raw) else e)
  | _ => table

/-- The identical routing logic inside `_receive_filtered` (the HITL
filtered receive): an `mcp_result` arriving during the wait is routed to
the table without being consumed. -/
def handleMcpResultFiltered (table : RpcTable) (msgId raw : String) : RpcTable :=
  match table.find? (fun e => e.1 == msgId) with
  | some (_, .pending) =>
    table.map (fun e => if e.1 == msgId then (e.1, .resolved raw) else e)
  | _ => table

/-- Whether the table holds a pending, unresolved future for the id
(`future and not future.done()`). -/
def hasPendingFuture (table : RpcTable) (msgId : String) : Bool :=
  match table.find? (fun e => e.1 == msgId) with
  | some (_, .pending) => true
  | _ => false

/-! ## Background jobs and the RPC timeout path
(`graph/background_worker.py`, `main.py` `_do_tauri_dispatch`) -/

/-- `BackgroundJobQueue`: running job ids plus the timeout counter. -/
structure BackgroundJobQueue where
  tasks : List String
  timeout_count : Nat
deriving Repr, DecidableEq

/-- How the awaited coroutine of a background job ends, as observed by
`BackgroundJobQueue._run`. -/
inductive JobOutcome where
  | ok (result : String)
  | cancelled
  | errored (msg : String)
deriving Repr, DecidableEq

/-- The result string passed to `on_complete` for each outcome. -/
def jobResultString (jobId : String) : JobOutcome → String
  | .ok s => s
  | .cancelled => "Job " ++ jobId ++ " was cancelled before completion."
  | .errored m => "Background job " ++ jobId ++ " encountered an error: " ++ m

/-- `BackgroundJobQueue._run` plus the task-table done-callback: the
timeout counter is incremented only on the success path and only when the
result string contains "timed out" (case-insensitive); `on_complete` fires
exactly once with `(job_id, result_str)`; the finished task is removed. -/
def BackgroundJobQueue.runJob (q : BackgroundJobQueue) (jobId : String)
    (outcome : JobOutcome) : BackgroundJobQueue × List (String × String) :=
  let resultStr := jobResultString jobId outcome
  let bumped :=
    match outcome with
    | .ok s => strContains (strLower s) "timed out"
    | _ => false
  ({ tasks := q.tasks.filter (fun t => !(t == jobId))
     timeout_count := if bumped then q.timeout_count + 1 else q.timeout_count },
   [(jobId, resultStr)])

/-- Observable side effects of the dispatch coroutine. -/
inductive Effect where
  | sendError (code : String) (jobId : String)
  | closeSession
deriving Repr, DecidableEq

/-- The error code `ErrorCode.E_RPC_TIMEOUT` from `errors.py`. -/
def E_RPC_TIMEOUT : String := "E_RPC_TIMEOUT"

/-- `RPC_BACKGROUND_TIMEOUT` (seconds) from `constants.py`. -/
def RPC_BACKGROUND_TIMEOUT : Nat := 30

/-- The `asyncio.TimeoutError` branch of `_do_tauri_dispatch`: pop the
pending future, send an `E_RPC_TIMEOUT` error envelope carrying the
job id, and return the timeout result string.  The session socket is not
closed. -/
def dispatchTimeout (table : RpcTable) (callId jobId : String) :
    RpcTable × List Effect × String :=
  (table.filter (fun e => !(e.1 == callId)),
   [.sendError E_RPC_TIMEOUT jobId],
   "Background job " ++ jobId ++ " timed out after 30 seconds.")

/-! ## VAD streamer defaults (`audio/vad.py`, `constants.py`, `main.py`) -/

/-- The keyword default of `silence_frames_for_turn_end` in
`VocoVADStreamer.__init__` (25 frames = 0.8 s at 32 ms per frame). -/
def vadDefaultSilenceFramesForTurnEnd : Nat := 25

/-- The keyword default of `barge_in_frames` in `VocoVADStreamer.__init__`. -/
def vadDefaultBargeInFrames : Nat := 2

/-- `SILENCE_FRAMES_FOR_TURN_END` from `constants.py` (40 frames =
1.28 s), which `main.py` passes explicitly when building the session VAD. -/
def SILENCE_FRAMES_FOR_TURN_END : Nat := 40

/-- The streaming counters of `VocoVADStreamer`. -/
structure VADStreamer where
  silence_frames_for_turn_end : Nat
  barge_in_frames : Nat
  speech_frames : Nat
  silence_frames : Nat
  is_speaking : Bool
  barge_in_fired : Bool
deriving Repr, DecidableEq

/-- `VocoVADStreamer.__init__`: an omitted keyword argument takes the
coded default. -/
def VADStreamer.init (silenceOverride bargeOverride : Option Nat) : VADStreamer :=
  { silence_frames_for_turn_end :=
      silenceOverride.getD vadDefaultSilenceFramesForTurnEnd
    barge_in_frames := bargeOverride.getD vadDefaultBargeInFrames
    speech_frames := 0
    silence_frames := 0
    is_speaking := false
    barge_in_fired := false }

/-- Edge events fired while processing one 512-sample frame. -/
inductive VADEvent where
  | barge_in
  | turn_end
deriving Repr, DecidableEq

/-- One frame of `process_chunk` after Silero scoring: `isSpeech` is
`prob >= speech_threshold`. -/
def VADStreamer.processFrame (v : VADStreamer) (isSpeech : Bool) :
    VADStreamer × List VADEvent :=
  if isSpeech then
    let v := { v with speech_frames := v.speech_frames + 1, silence_frames := 0 }
    if !v.is_speaking && v.barge_in_frames ≤ v.speech_frames then
      if !v.barge_in_fired then
        ({ v with is_speaking := true, barge_in_fired := true }, [.barge_in])
      else ({ v with is_speaking := true }, [])
    else (v, [])
  else
    let v := { v with silence_frames := v.silence_frames + 1, speech_frames := 0 }
    if v.is_speaking && v.silence_frames_for_turn_end ≤ v.silence_frames then
      ({ v with speech_frames := 0, silence_frames := 0,
                is_speaking := false, barge_in_fired := false }, [.turn_end])
    else (v, [])

/-! ## The turn pipeline as a transition system (`main.py` `_on_turn_end`)

One reachable-states model of the sequential turn pipeline.  A turn:

1. `graph.ainvoke({"messages": [HumanMessage(...)]})`: the `HumanMessage`
   is appended and the graph runs from START (`context_router →
   boss_router → orchestrator`).  When the previous turn left the graph
   interrupted at a review node, this dict input discards the pending
   review task and restarts from START all the same, so the stale pending
   lists reach the router only after the orchestrator has appended a new
   assistant response;
2. the router sends the run to a review interrupt, `mcp_gateway → END`,
   or `END`;
3. step 2.5 of main handles a proposal interrupt: the `Command` resume
   runs `proposal_review_node` (one summary `ToolMessage` appended, with
   the call id recovered by scanning the log), then the
   `proposal_review → orchestrator` edge appends the next assistant
   response; step 2.6 handles a command interrupt likewise; step 3
   performs the Instant-ACK + background dispatch when
   `pending_mcp_action` is set: the ACK/inline `ToolMessage` with the id
   of the pending call is appended and the graph is re-invoked with a
   dict input — which again discards any pending review task and runs
   from START — so only the orchestrator appends another assistant
   response.  Review interrupts raised by the later responses of a turn
   stay pending in state (the lists are never cleared by the restart)
   and surface again at the router of a later turn.

The LLM responses, user input, HITL decisions, the job id and the
dispatched `ToolMessage` content (the ACK text for local-RPC tools; the
screen / scan / sandbox result text for the inline handlers) are oracle
inputs.  The concurrent barge-in re-entry edge is outside this model. -/

/-- The oracle inputs consumed by one turn. -/
structure TurnOracle where
  input : String
  resp1 : AIResponse
  pDecisions : List ArgDict
  resp2 : AIResponse
  cDecisions : List ArgDict
  resp3 : AIResponse
  dispContent : String
  resp4 : AIResponse
deriving Repr

/-- The exact Instant-ACK `ToolMessage` content for a background job. -/
def ackContent (jobId : String) : String :=
  "Action queued in background with Job ID: " ++ jobId ++
    ". You may continue conversing with the user."

/-- Resume an interrupted `proposal_review_node` with the given decision
list (main.py resumes with `Command(resume=None,
update={"proposal_decisions": ...})`, which continues the pending review
task). -/
def resumeProposalReview (st : VocoState) (decisions : List ArgDict) : VocoState :=
  proposal_review_node { st with proposal_decisions := decisions }

/-- Resume an interrupted `command_review_node` with the given decisions. -/
def resumeCommandReview (st : VocoState) (decisions : List ArgDict) : VocoState :=
  command_review_node { st with command_decisions := decisions }

/-- Step 3 of the pipeline: when `pending_mcp_action` is set, append the
dispatched `ToolMessage` (Instant-ACK or inline handler result) with the
id of the pending call and re-invoke the graph.  The re-invocation is a
dict input (`{"messages": [ack]}`), so a still-pending review task is
discarded and the run restarts from START: only the orchestrator appends
a response.  `pending_mcp_action` is not cleared by the dispatch. -/
def dispatchStep (st : VocoState) (dispContent : String)
    (resp : AIResponse) : VocoState :=
  match st.pending_mcp_action with
  | none => st
  | some a =>
    runOrchestrator
      { st with messages := st.messages ++ [.tool a.id dispContent] } resp

/-- Turn entry: the dict input appends the `HumanMessage` and restarts
from START; a pending review task from the previous turn is discarded,
its pending lists surviving in state. -/
def turnEntry (st : VocoState) (input : String) : VocoState :=
  { st with messages := st.messages ++ [.human input] }

/-- Pipeline step 2.5: handle a proposal interrupt (resume with the user
decisions; the `proposal_review → orchestrator` edge appends the next
assistant response). -/
def turnStage25 (st : VocoState) (o : TurnOracle) : VocoState :=
  if !st.pending_proposals.isEmpty then
    runOrchestrator (resumeProposalReview st o.pDecisions) o.resp2
  else st

/-- Pipeline step 2.6: handle a command interrupt. -/
def turnStage26 (st : VocoState) (o : TurnOracle) : VocoState :=
  if st.pending_proposals.isEmpty && !st.pending_commands.isEmpty then
    runOrchestrator (resumeCommandReview st o.cDecisions) o.resp3
  else st

/-- Pipeline step 3: Instant-ACK + background dispatch (or inline
handler) when a pending MCP action is set. -/
def turnStage3 (st : VocoState) (o : TurnOracle) : VocoState :=
  if st.pending_mcp_action.isSome then dispatchStep st o.dispContent o.resp4
  else st

/-- One full `_on_turn_end` turn. -/
def runTurn (st : VocoState) (o : TurnOracle) : VocoState :=
  turnStage3
    (turnStage26 (turnStage25 (runOrchestrator (turnEntry st o.input) o.resp1) o) o) o

/-- The empty initial state of a fresh session. -/
def initState : VocoState :=
  { messages := []
    barge_in_detected := false
    pending_mcp_action := none
    pending_proposals := []
    pending_commands := []
    proposal_decisions := []
    command_decisions := [] }

/-- The reachable graph states: the initial state and everything
obtainable by running turns with arbitrary oracle inputs. -/
inductive Reachable : VocoState → Prop where
  | init : Reachable initState
  | step (st : VocoState) (o : TurnOracle) : Reachable st → Reachable (runTurn st o)

/-- The invariant claimed by the spec: every assistant message carrying a
tool call `tc` is immediately followed by a `ToolMessage` whose `call_id`
equals `tc.id` (stated for logs where a following message exists). -/
def StrictPairing (log : List Msg) : Prop :=
  ∀ i text tcs tc m, log.get? i = some (.assistant text tcs) → tc ∈ tcs →
    log.get? (i + 1) = some m → ∃ c, m = .tool tc.id c

/-- One message, at most one tool call. -/
def singleCallMsg : Msg → Bool
  | .assistant _ tcs => tcs.length ≤ 1
  | _ => true

/-- Every assistant message in the log carries at most one tool call. -/
def SingleCall (log : List Msg) : Prop :=
  log.all singleCallMsg = true

/-- The successor shapes the pipeline actually produces right after a
tool-calling assistant message: a `ToolMessage` answering one of its
calls; a review-summary `ToolMessage` with a fallback call id (emitted
when a stale review interrupt is resumed while the last tool-calling
assistant has no matching `propose_*` call); or the `HumanMessage`
opening the next turn. -/
def SuccOk (tcs : List ToolCall) (m : Msg) : Prop :=
  (∃ tc c, tc ∈ tcs ∧ m = .tool tc.id c) ∨
  (∃ c, m = .tool "proposal-review" c) ∨
  (∃ c, m = .tool "command-review" c) ∨
  (∃ h, m = .human h)

/-- The amended invariant: an assistant message carrying tool calls that
has a successor is immediately followed by one of the `SuccOk` shapes. -/
def AmendedPairing (log : List Msg) : Prop :=
  ∀ i text tcs m, log.get? i = some (.assistant text tcs) → tcs ≠ [] →
    log.get? (i + 1) = some m → SuccOk tcs m

/-- The log ends with an assistant message (the shape every orchestrator
invocation leaves behind). -/
def EndsWithAssistant (st : VocoState) : Prop :=
  ∃ l text tcs, st.messages = l ++ [Msg.assistant text tcs]

/-! ## Index-level view of the trimmer

`trimKeepsIndex` is true exactly when the message at index `i` survives
trimming at its position; `trim_keeps_characterisation` below ties it to
the output list. -/

/-- Whether the trimmer keeps the message at index `i`. -/
def trimKeepsIndex (count : String → List MsgDict → Nat) (system_prompt : String)
    (messages : List Msg) (model : String) (max_tokens : Nat) (i : Nat) : Bool :=
  let systemDict : MsgDict := ("system", system_prompt)
  let total : Int := (count model (systemDict :: messages.map msgToDict) : Int)
  if total ≤ (max_tokens : Int) then true
  else !(removedIndices count model messages max_tokens total).contains i

/-! ## Concrete instances used by the counterexamples and witnesses -/

/-- A non-proposal search tool call with id `"s1"`. -/
def searchCall : ToolCall :=
  { name := "search_codebase", args := [("pattern", "auth")], id := "s1" }

/-- A second non-proposal tool call with id `"s2"`, emitted in the same
assistant response as `searchCall`. -/
def readCall : ToolCall :=
  { name := "read_file", args := [("file_path", "a.py")], id := "s2" }

/-- A file-proposal tool call. -/
def proposeFileCall : ToolCall :=
  { name := "propose_file_creation"
    args := [("proposal_id", "p1"), ("action", "create_file"),
             ("file_path", "README.md"), ("content", "hello")]
    id := "p1" }

/-- Oracle for the C1 counterexample turn: the model answers with two
non-proposal tool calls in one response; the Instant-ACK answers only the
first. -/
def c1Oracle : TurnOracle :=
  { input := "find and read"
    resp1 := { text := "", tool_calls := [searchCall, readCall] }
    pDecisions := []
    resp2 := { text := "", tool_calls := [] }
    cDecisions := []
    resp3 := { text := "", tool_calls := [] }
    dispContent := ackContent "j1"
    resp4 := { text := "on it", tool_calls := [] } }

/-- The graph state after the C1 counterexample turn. -/
def c1State : VocoState := runTurn initState c1Oracle

/-- Oracle for the C1 witness turn: a single tool call per response. -/
def c1SingleOracle : TurnOracle :=
  { input := "search for auth"
    resp1 := { text := "", tool_calls := [searchCall] }
    pDecisions := []
    resp2 := { text := "", tool_calls := [] }
    cDecisions := []
    resp3 := { text := "", tool_calls := [] }
    dispContent := ackContent "j2"
    resp4 := { text := "searching now", tool_calls := [] } }

/-- The graph state after the C1 witness turn. -/
def c1SingleState : VocoState := runTurn initState c1SingleOracle

/-- A second file-proposal call, raised by the post-review response of
the stale-review scenario turn. -/
def proposeFileCall2 : ToolCall :=
  { name := "propose_file_creation"
    args := [("proposal_id", "p2"), ("action", "create_file"),
             ("file_path", "NOTES.md"), ("content", "later")]
    id := "p2" }

/-- First turn of the stale-review scenario: a file proposal is reviewed,
and the post-review response raises another file proposal, whose
interrupt is left pending at the end of the turn. -/
def c1StaleOracleA : TurnOracle :=
  { input := "create two files"
    resp1 := { text := "", tool_calls := [proposeFileCall] }
    pDecisions := [[("proposal_id", "p1"), ("status", "approved")]]
    resp2 := { text := "", tool_calls := [proposeFileCall2] }
    cDecisions := []
    resp3 := { text := "", tool_calls := [] }
    dispContent := ""
    resp4 := { text := "", tool_calls := [] } }

/-- Second turn of the stale-review scenario: the new dict input discards
the pending review task, the orchestrator answers with a single
non-proposal call, and the stale proposal list routes the run back to
`proposal_review_node`, whose summary `ToolMessage` gets the fallback
call id `"proposal-review"`. -/
def c1StaleOracleB : TurnOracle :=
  { input := "also search for auth"
    resp1 := { text := "", tool_calls := [searchCall] }
    pDecisions := [[("proposal_id", "p2"), ("status", "rejected")]]
    resp2 := { text := "", tool_calls := [] }
    cDecisions := []
    resp3 := { text := "", tool_calls := [] }
    dispContent := ackContent "j3"
    resp4 := { text := "done", tool_calls := [] } }

/-- The graph state after the two stale-review scenario turns. -/
def c1StaleState : VocoState := runTurn (runTurn initState c1StaleOracleA) c1StaleOracleB

/-- The assistant message of the C2 counterexample: it carries the
`searchCall` tool call whose result arrives as `Msg.tool "s1" "result"`. -/
def c2Assistant : Msg := .assistant "go" [searchCall]

/-- C2 counterexample message list: the tool-calling assistant and its
paired tool result sit just outside the last-10 window, and the tool
result is protected as one of the last 4 tool messages while the
assistant is not protected at all. -/
def c2Msgs : List Msg :=
  [c2Assistant, .tool "s1" "result",
   .human "a", .human "b", .human "c", .human "d", .human "e",
   .human "f", .human "g", .human "h", .human "i", .human "j"]

/-- Witness message list for the amended C2 theorem. -/
def c2WitnessMsgs : List Msg :=
  [c2Assistant, .tool "s1" "result", .human "thanks"]

/-! ## Auxiliary invariant for the turn-pipeline induction

Whenever the log ends in a tool-calling assistant message, the pending
MCP action (if any) is one of that assistant's own calls — because the
orchestrator update overwrites `pending_mcp_action` whenever the
response carries tool calls. -/

/-- The pending MCP action belongs to the calls of the final assistant
(vacuous unless the log ends in a tool-calling assistant). -/
def LastOkMcp (a : ToolCall) (log : List Msg) : Prop :=
  ∀ text tcs, log.getLast? = some (.assistant text tcs) → tcs ≠ [] → a ∈ tcs

/-- The inductive invariant of the turn pipeline (for single-tool-call
logs): the amended pairing plus consistency of the pending action. -/
def InvCore (st : VocoState) : Prop :=
  AmendedPairing st.messages ∧
  (∀ a, st.pending_mcp_action = some a → LastOkMcp a st.messages)

/-! # Theorems -/

/-! ## C3 — VAD default threshold -/

/-- C3 counterexample: the unoverridden `VocoVADStreamer.__init__` default
for `silence_frames_for_turn_end` is 25 (0.8 s), not 40 as the claim
states. -/
theorem c3_counterexample :
    (VADStreamer.init none none).silence_frames_for_turn_end = 25 ∧
    ¬ (VADStreamer.init none none).silence_frames_for_turn_end = 40 := by
  decide

/-- C3 amended: the constructor default is 25 frames (0.8 s); the 40-frame
(1.28 s) figure is `constants.SILENCE_FRAMES_FOR_TURN_END`, which
`main.py` passes explicitly when building the session streamer, so the
deployed session streamer does use 40. -/
theorem c3_amended :
    (VADStreamer.init none none).silence_frames_for_turn_end =
      vadDefaultSilenceFramesForTurnEnd ∧
    vadDefaultSilenceFramesForTurnEnd = 25 ∧
    SILENCE_FRAMES_FOR_TURN_END = 40 ∧
    (VADStreamer.init (some SILENCE_FRAMES_FOR_TURN_END) none).silence_frames_for_turn_end = 40 := by
  decide

/-! ## C5 — router priority order -/

/-- C5: `_route_after_orchestrator` selects, in priority order: the
orchestrator again on barge-in; else proposal review when proposals are
pending; else command review when commands are pending; else tool
dispatch when a pending MCP action exists; else END. -/
theorem c5_router_priority (st : VocoState) :
    (st.barge_in_detected = true →
      route_after_orchestrator st = .orchestrator_node) ∧
    (st.barge_in_detected = false → st.pending_proposals ≠ [] →
      route_after_orchestrator st = .proposal_review_node) ∧
    (st.barge_in_detected = false → st.pending_proposals = [] →
      st.pending_commands ≠ [] →
      route_after_orchestrator st = .command_review_node) ∧
    (st.barge_in_detected = false → st.pending_proposals = [] →
      st.pending_commands = [] → st.pending_mcp_action.isSome →
      route_after_orchestrator st = .mcp_gateway_node) ∧
    (st.barge_in_detected = false → st.pending_proposals = [] →
      st.pending_commands = [] → st.pending_mcp_action = none →
      route_after_orchestrator st = .END) := by
  refine ⟨?_, ?_, ?_, ?_, ?_⟩ <;> intros <;>
    simp_all [route_after_orchestrator, List.isEmpty_iff]

/-- C5 witness: the router at a concrete state with pending commands. -/
theorem c5_router_priority_witness :
    route_after_orchestrator
      { messages := [], barge_in_detected := false,
        pending_mcp_action := some searchCall,
        pending_proposals := [],
        pending_commands := [[("command_id", "c9"), ("command", "ls")]],
        proposal_decisions := [], command_decisions := [] } =
      .command_review_node :=
  (c5_router_priority _).2.2.1 rfl rfl (by decide)

/-! ## C4 — orchestrator partition of tool calls -/

/-- The partition loop equals filtering: command proposals, file
proposals, and the first non-proposal call. -/
theorem partitionCalls_eq (tcs : List ToolCall) :
    partitionCalls tcs =
      (tcs.filter isCommandCall, tcs.filter isFileProposalCall,
        (tcs.filter isMcpCall).head?) := by
  induction tcs with
  | nil => rfl
  | cons tc rest ih =>
    simp only [partitionCalls, ih]
    by_cases h1 : isCommandCall tc
    · have h2 : isFileProposalCall tc = false := by
        simp [isFileProposalCall, isCommandCall] at h1 ⊢
        simp [h1]
      have h3 : isMcpCall tc = false := by
        simp [isCommandCall] at h1
        simp [isMcpCall, strStartsWith, h1]
      simp [h1, h2, h3, List.filter_cons]
    · by_cases h4 : strStartsWith tc.name "propose_"
      · have h2 : isFileProposalCall tc = true := by
          simp [isFileProposalCall, isCommandCall] at h1 ⊢
          exact ⟨h1, h4⟩
        have h3 : isMcpCall tc = false := by
          simp [isMcpCall, h4]
        simp [h1, h2, h3, h4, List.filter_cons]
      · have h2 : isFileProposalCall tc = false := by
          simp [isFileProposalCall, h4]
        have h3 : isMcpCall tc = true := by
          simp [isMcpCall, h4]
        simp [h1, h2, h3, h4, List.filter_cons]

/-- C4: when the response carries tool calls, the orchestrator update
gives the command-proposal list exactly the `propose_command` calls, the
file-proposal list exactly the other `propose_*` calls (each list only
when non-empty, mirroring the conditional keys), and `pending_mcp_action`
the first remaining call — so every further non-proposal call in the same
response is dropped. -/
theorem c4_orchestrator_partition (resp : AIResponse)
    (h : resp.tool_calls ≠ []) :
    (orchestrator_node resp).pending_commands =
      (if (resp.tool_calls.filter isCommandCall).isEmpty then none
       else some ((resp.tool_calls.filter isCommandCall).map (·.args))) ∧
    (orchestrator_node resp).pending_proposals =
      (if (resp.tool_calls.filter isFileProposalCall).isEmpty then none
       else some ((resp.tool_calls.filter isFileProposalCall).map (·.args))) ∧
    (orchestrator_node resp).pending_mcp_action =
      some ((resp.tool_calls.filter isMcpCall).head?) := by
  have hne : resp.tool_calls.isEmpty = false := by
    simpa [List.isEmpty_iff] using h
  refine ⟨?_, ?_, ?_⟩ <;>
    simp [orchestrator_node, partitionCalls_eq, hne]

/-- C4 witness: a response carrying a command proposal, a file proposal
and two non-proposal calls keeps only the first non-proposal call. -/
theorem c4_orchestrator_partition_witness :
    (orchestrator_node
      { text := ""
        tool_calls := [{ name := "propose_command", args := [("command", "ls")], id := "c1" },
                       proposeFileCall, searchCall, readCall] }).pending_mcp_action =
      some (some searchCall) := by
  have h := (c4_orchestrator_partition
    { text := ""
      tool_calls := [{ name := "propose_command", args := [("command", "ls")], id := "c1" },
                     proposeFileCall, searchCall, readCall] } (by decide)).2.2
  rw [h]
  decide

/-! ## C10 — stale `pending_mcp_action` frame effect -/

/-- C10: the orchestrator node overwrites `pending_mcp_action` only when
the response carries tool calls; with no tool calls the key is absent
from the update, so a previously set action survives the merge, and with
no other pendings the router then sends the stale action to
`mcp_gateway_node` on a later turn. -/
theorem c10_stale_pending_action :
    (∀ (st : VocoState) (resp : AIResponse), resp.tool_calls = [] →
       (runOrchestrator st resp).pending_mcp_action = st.pending_mcp_action) ∧
    (∀ (st : VocoState) (resp : AIResponse) (a : ToolCall),
       resp.tool_calls = [] → st.pending_mcp_action = some a →
       st.pending_proposals = [] → st.pending_commands = [] →
       route_after_orchestrator (runOrchestrator st resp) = .mcp_gateway_node) := by
  constructor
  · intro st resp h
    simp [runOrchestrator, orchestrator_node, applyOrchUpdate, h]
  · intro st resp a h ha hp hc
    simp [runOrchestrator, orchestrator_node, applyOrchUpdate, h,
      route_after_orchestrator, ha, hp, hc]

/-- C10 witness: a state carrying a stale pending action and an
empty-tool-call response route straight back to the MCP gateway. -/
theorem c10_stale_pending_action_witness :
    route_after_orchestrator
      (runOrchestrator
        { messages := [], barge_in_detected := false,
          pending_mcp_action := some searchCall, pending_proposals := [],
          pending_commands := [], proposal_decisions := [],
          command_decisions := [] }
        { text := "done", tool_calls := [] }) = .mcp_gateway_node :=
  c10_stale_pending_action.2 _ _ searchCall rfl rfl rfl rfl

/-! ## C9 — unmatched JSON-RPC replies are ignored -/

/-- C9: an `mcp_result` (or raw JSON-RPC reply) whose id matches no
pending, unresolved future leaves the pending-RPC table unchanged, both
in the main inbound loop and in the HITL filtered receive. -/
theorem c9_unmatched_reply_ignored (table : RpcTable) (msgId raw : String)
    (h : hasPendingFuture table msgId = false) :
    handleMcpResultMainLoop table msgId raw = table ∧
    handleMcpResultFiltered table msgId raw = table := by
  unfold hasPendingFuture at h
  constructor
  · unfold handleMcpResultMainLoop
    rcases hf : table.find? (fun e => e.1 == msgId) with _ | ⟨k, fs⟩
    · simp [hf]
    · cases fs with
      | pending => rw [hf] at h; simp at h
      | resolved v => simp [hf]
  · unfold handleMcpResultFiltered
    rcases hf : table.find? (fun e => e.1 == msgId) with _ | ⟨k, fs⟩
    · simp [hf]
    · cases fs with
      | pending => rw [hf] at h; simp at h
      | resolved v => simp [hf]

/-- C9 witness: a reply for an unknown id against a table holding one
resolved and one differently keyed future. -/
theorem c9_unmatched_reply_ignored_witness :
    handleMcpResultMainLoop [("a", .resolved "r"), ("b", .pending)] "zz" "raw" =
      [("a", .resolved "r"), ("b", .pending)] :=
  (c9_unmatched_reply_ignored [("a", .resolved "r"), ("b", .pending)] "zz" "raw"
    (by decide)).1

/-! ## C8 — HITL decision timeout -/

/-- C8: when no decision message arrives within the 120 s wait, the
pipeline resumes with the empty decision list, the review nodes record
every pending item with status `"unknown"`, and no `write_file` or
`execute_command` RPC is sent for any item. -/
theorem c8_hitl_timeout (proposals commands : List ArgDict) (path : String) :
    hitlTimeoutDecisions = [] ∧
    HITL_PROPOSAL_TIMEOUT = 120 ∧ HITL_COMMAND_TIMEOUT = 120 ∧
    writeFileRpcs proposals hitlTimeoutDecisions path = [] ∧
    execCommandRpcs commands hitlTimeoutDecisions path = [] ∧
    proposals.map (proposalReviewLine hitlTimeoutDecisions) =
      proposals.map (fun p => "- " ++ dget p "file_path" "?" ++ ": unknown") ∧
    commands.map (commandReviewLine hitlTimeoutDecisions) =
      commands.map (fun c => "- `" ++ dget c "command" "?" ++ "`: unknown") := by
  have hu : (": " ++ "unknown" : String) = ": unknown" := rfl
  have hc : ("`: " ++ "unknown" : String) = "`: unknown" := rfl
  refine ⟨rfl, rfl, rfl, ?_, ?_, ?_, ?_⟩
  · simp [writeFileRpcs, hitlTimeoutDecisions, dget]
  · simp [execCommandRpcs, hitlTimeoutDecisions, dget]
  · simp [proposalReviewLine, proposalStatusFor, hitlTimeoutDecisions,
      String.append_assoc, hu]
  · simp [commandReviewLine, commandDecisionFor, hitlTimeoutDecisions, dget,
      String.append_assoc, hc]

/-! ## C6 — background RPC timeout -/

theorem listIsInfixOf_cons (pat : List Char) (c : Char) (l : List Char)
    (h : listIsInfixOf pat l = true) : listIsInfixOf pat (c :: l) = true := by
  simp [listIsInfixOf, h]

theorem listIsInfixOf_append_left (pat a l : List Char)
    (h : listIsInfixOf pat l = true) : listIsInfixOf pat (a ++ l) = true := by
  induction a with
  | nil => simpa using h
  | cons c rest ih => exact listIsInfixOf_cons pat c (rest ++ l) ih

/-- The timeout result string contains "timed out" case-insensitively,
whatever the job id. -/
theorem timeout_msg_contains (jobId : String) :
    strContains (strLower ("Background job " ++ jobId ++
      " timed out after 30 seconds.")) "timed out" = true := by
  unfold strContains strLower
  have hd : ("Background job " ++ jobId ++ " timed out after 30 seconds.").data
      = ("Background job ").data ++ jobId.data ++
          (" timed out after 30 seconds.").data := by
    simp [String.data_append]
  rw [hd]
  simp only [List.map_append, List.append_assoc]
  refine listIsInfixOf_append_left _ _ _ ?_
  refine listIsInfixOf_append_left _ _ _ ?_
  decide

/-- C6: when a background local-RPC dispatch times out after the 30 s
wait, the pending future for the call id is removed from the table, an
`E_RPC_TIMEOUT` error envelope carrying the job id is sent (and the
session is not closed), the completion callback fires exactly once with a
result string containing "timed out", and `timeout_count` goes up by
one. -/
theorem c6_rpc_timeout (table : RpcTable) (q : BackgroundJobQueue)
    (callId jobId : String) :
    ((dispatchTimeout table callId jobId).1.find? (fun e => e.1 == callId)
        = none) ∧
    (dispatchTimeout table callId jobId).2.1 =
      [.sendError E_RPC_TIMEOUT jobId] ∧
    Effect.closeSession ∉ (dispatchTimeout table callId jobId).2.1 ∧
    strContains (strLower (dispatchTimeout table callId jobId).2.2)
      "timed out" = true ∧
    (q.runJob jobId (.ok (dispatchTimeout table callId jobId).2.2)).1.timeout_count
      = q.timeout_count + 1 ∧
    (q.runJob jobId (.ok (dispatchTimeout table callId jobId).2.2)).2 =
      [(jobId, (dispatchTimeout table callId jobId).2.2)] ∧
    RPC_BACKGROUND_TIMEOUT = 30 := by
  refine ⟨?_, rfl, ?_, ?_, ?_, rfl, rfl⟩
  · rw [List.find?_eq_none]
    intro e he
    have := List.of_mem_filter he
    simpa using this
  · simp [dispatchTimeout]
  · exact timeout_msg_contains jobId
  · simp [BackgroundJobQueue.runJob, dispatchTimeout, jobResultString,
      timeout_msg_contains jobId]

/-! ## C7 / C2 — trimmer guarantees -/

theorem filterIdxFrom_mem (p : Nat → Bool) :
    ∀ (ms : List Msg) (s i : Nat) (hi : i < ms.length),
      p (s + i) = true → ms.get ⟨i, hi⟩ ∈ filterIdxFrom p ms s := by
  intro ms
  induction ms with
  | nil => intro s i hi; simp at hi
  | cons m rest ih =>
    intro s i hi hp
    cases i with
    | zero =>
      simp only [List.get] at hp ⊢
      simp only [filterIdxFrom]
      rw [show s + 0 = s from rfl] at hp
      rw [hp]
      exact List.mem_cons_self _ _
    | succ j =>
      simp only [List.get]
      have hj : j < rest.length := Nat.lt_of_succ_lt_succ hi
      have hp2 : p (s + 1 + j) = true := by
        have : s + 1 + j = s + (j + 1) := by omega
        rw [this]; exact hp
      have hmem := ih (s + 1) j hj hp2
      simp only [filterIdxFrom]
      by_cases hps : p s
      · rw [if_pos hps]; exact List.mem_cons_of_mem _ hmem
      · rw [if_neg hps]; exact hmem

theorem filterIdxFrom_sublist (p : Nat → Bool) :
    ∀ (ms : List Msg) (s : Nat), (filterIdxFrom p ms s).Sublist ms := by
  intro ms
  induction ms with
  | nil => intro s; simp [filterIdxFrom]
  | cons m rest ih =>
    intro s
    simp only [filterIdxFrom]
    by_cases hps : p s
    · rw [if_pos hps]; exact (ih (s + 1)).cons₂ m
    · rw [if_neg hps]; exact (ih (s + 1)).cons m

theorem filterIdxFrom_true :
    ∀ (ms : List Msg) (s : Nat), filterIdxFrom (fun _ => true) ms s = ms := by
  intro ms
  induction ms with
  | nil => intro s; rfl
  | cons m rest ih => intro s; simp [filterIdxFrom, ih]

/-- The removal loop only ever removes a prefix of the trimmable list. -/
theorem trimLoop_prefix (c : Nat → Int) (mx : Int) :
    ∀ (l : List Nat) (t : Int), ∃ k, trimLoop c mx l t = l.take k := by
  intro l
  induction l with
  | nil => intro t; exact ⟨0, rfl⟩
  | cons i rest ih =>
    intro t
    simp only [trimLoop]
    by_cases h : t ≤ mx
    · exact ⟨0, by rw [if_pos h]; rfl⟩
    · obtain ⟨k, hk⟩ := ih (t - c i)
      exact ⟨k + 1, by rw [if_neg h, hk]; rfl⟩

/-- Removed indices are always trimmable (never protected). -/
theorem removed_subset_trimmable (count : String → List MsgDict → Nat)
    (model : String) (msgs : List Msg) (maxT : Nat) (total : Int) :
    removedIndices count model msgs maxT total ⊆ trimmableIndices msgs := by
  obtain ⟨k, hk⟩ := trimLoop_prefix
    (fun i => (count model [msgToDict (msgs.getD i (.system ""))] : Int))
    (maxT : Int) (trimmableIndices msgs) total
  unfold removedIndices
  rw [hk]
  exact List.take_subset k _

theorem protected_not_removed (count : String → List MsgDict → Nat)
    (model : String) (msgs : List Msg) (maxT : Nat) (total : Int) (i : Nat)
    (h : isProtected msgs i = true) :
    i ∉ removedIndices count model msgs maxT total := by
  intro hmem
  have htrim := removed_subset_trimmable count model msgs maxT total hmem
  have := List.of_mem_filter htrim
  simp [h] at this

/-- C7: the trimmer keeps every message in the last-10 window and every
tool message among the last 4 tool messages; with the total under budget
the input is returned unchanged; and the output is always a sublist of
the input message list (the system prompt is a separate argument and is
never among the removable items). -/
theorem c7_trim_protections (count : String → List MsgDict → Nat)
    (sys : String) (msgs : List Msg) (model : String) (maxT : Nat) :
    ((count model (("system", sys) :: msgs.map msgToDict) : Int) ≤ (maxT : Int) →
      trim_messages_to_budget count sys msgs model maxT = msgs) ∧
    (∀ (i : Nat) (hi : i < msgs.length), msgs.length ≤ i + KEEP_LAST_CONV_MSGS →
      msgs.get ⟨i, hi⟩ ∈ trim_messages_to_budget count sys msgs model maxT) ∧
    (∀ (i : Nat) (hi : i < msgs.length), i ∈ lastToolIndices msgs →
      msgs.get ⟨i, hi⟩ ∈ trim_messages_to_budget count sys msgs model maxT) ∧
    (trim_messages_to_budget count sys msgs model maxT).Sublist msgs := by
  have protKeep : ∀ (i : Nat) (hi : i < msgs.length), isProtected msgs i = true →
      msgs.get ⟨i, hi⟩ ∈ trim_messages_to_budget count sys msgs model maxT := by
    intro i hi hp
    unfold trim_messages_to_budget
    by_cases hb : (count model (("system", sys) :: msgs.map msgToDict) : Int)
        ≤ (maxT : Int)
    · rw [if_pos hb]; exact List.get_mem msgs i hi
    · rw [if_neg hb]
      refine filterIdxFrom_mem _ msgs 0 i hi ?_
      have := protected_not_removed count model msgs maxT
        ((count model (("system", sys) :: msgs.map msgToDict) : Int)) i hp
      simpa using this
  refine ⟨?_, ?_, ?_, ?_⟩
  · intro hb
    unfold trim_messages_to_budget
    rw [if_pos hb]
  · intro i hi h10
    exact protKeep i hi (by simp [isProtected, h10])
  · intro i hi htool
    exact protKeep i hi (by simp [isProtected, htool])
  · unfold trim_messages_to_budget
    by_cases hb : (count model (("system", sys) :: msgs.map msgToDict) : Int)
        ≤ (maxT : Int)
    · rw [if_pos hb]
    · rw [if_neg hb]; exact filterIdxFrom_sublist _ msgs 0

/-- C7 witness: over a zero budget, the tool message at index 1 of
`c2Msgs` (one of the last 4 tool messages) survives trimming. -/
theorem c7_trim_protections_witness :
    Msg.tool "s1" "result" ∈
      trim_messages_to_budget fallbackCount "sys" c2Msgs "claude-sonnet-4-5-20250929" 0 := by
  have h := (c7_trim_protections fallbackCount "sys" c2Msgs
    "claude-sonnet-4-5-20250929" 0).2.2.1 1 (by decide) (by decide)
  simpa using h

/-- C2 counterexample: over a zero budget, the trimmer removes the
tool-calling assistant `c2Assistant` (index 0, unprotected) while keeping
its matching tool result (`call_id = "s1"`, protected as one of the last
4 tool messages), breaking the claimed pairing guarantee. -/
theorem c2_counterexample :
    c2Assistant ∉
      trim_messages_to_budget fallbackCount "sys" c2Msgs "claude-sonnet-4-5-20250929" 0 ∧
    Msg.tool "s1" "result" ∈
      trim_messages_to_budget fallbackCount "sys" c2Msgs "claude-sonnet-4-5-20250929" 0 := by
  constructor <;> decide

/-- C2 amended: the trimmer output is exactly the messages whose index
survives (`trimKeepsIndex`), and the guarantee holds in one direction
only: a Tool message immediately following a kept tool-calling Assistant
message is itself kept.  The converse direction fails (see the
counterexample): a kept Tool message does not protect its Assistant. -/
theorem c2_amended_tool_not_orphaned (count : String → List MsgDict → Nat)
    (sys : String) (msgs : List Msg) (model : String) (maxT : Nat) :
    (trim_messages_to_budget count sys msgs model maxT =
      filterIdxFrom (fun i => trimKeepsIndex count sys msgs model maxT i) msgs 0) ∧
    (∀ (i : Nat) (text : String) (tcs : List ToolCall) (cid c : String),
      msgs.get? i = some (.assistant text tcs) → tcs ≠ [] →
      msgs.get? (i + 1) = some (.tool cid c) →
      trimKeepsIndex count sys msgs model maxT i = true →
      trimKeepsIndex count sys msgs model maxT (i + 1) = true) := by
  constructor
  · unfold trim_messages_to_budget trimKeepsIndex
    by_cases hb : (count model (("system", sys) :: msgs.map msgToDict) : Int)
        ≤ ((maxT : Nat) : Int)
    · rw [if_pos hb]
      simp only [if_pos hb]
      rw [filterIdxFrom_true]
    · rw [if_neg hb]
      simp only [if_neg hb]
  · intro i text tcs cid c hA hne hT hkeep
    have hi : i < msgs.length := by
      rcases List.get?_eq_some.mp hA with ⟨h, _⟩; exact h
    have hi1 : i + 1 < msgs.length := by
      rcases List.get?_eq_some.mp hT with ⟨h, _⟩; exact h
    unfold trimKeepsIndex at hkeep ⊢
    by_cases hb : (count model (("system", sys) :: msgs.map msgToDict) : Int)
        ≤ ((maxT : Nat) : Int)
    · simp only [if_pos hb]
    · simp only [if_neg hb] at hkeep ⊢
      set total := (count model (("system", sys) :: msgs.map msgToDict) : Int)
        with htot
      set removed := removedIndices count model msgs maxT total with hrem
      have hiNot : i ∉ removed := by simpa using hkeep
      have hgoal : i + 1 ∉ removed → (!removed.contains (i + 1)) = true := by
        intro h; simpa using h
      refine hgoal ?_
      intro hmem1
      have hsub := removed_subset_trimmable count model msgs maxT total
      -- `i` is an assistant message, so it can only be protected by the
      -- last-10 window, never as a tool index.
      by_cases hp : isProtected msgs i = true
      · have h10 : msgs.length ≤ i + KEEP_LAST_CONV_MSGS := by
          have := hp
          unfold isProtected at this
          rcases Bool.or_eq_true_iff.mp this with h1 | h2
          · exact Nat.le_of_ble_eq_true (by simpa using h1)
          · exfalso
            have hmem2 : i ∈ lastToolIndices msgs := by
              have := h2
              simpa using this
            have hdrop : i ∈ toolIndices msgs :=
              (List.drop_subset _ _) hmem2
            have := List.of_mem_filter hdrop
            have hgetd : msgs.getD i (.system "") = .assistant text tcs := by
              rw [List.getD_eq_get?]
              rw [hA]
              rfl
            rw [hgetd] at this
            simp [Msg.isTool] at this
        have hp1 : isProtected msgs (i + 1) = true := by
          unfold isProtected
          refine Bool.or_eq_true_iff.mpr (Or.inl ?_)
          simp only [decide_eq_true_eq]
          omega
        have htr := hsub hmem1
        have := List.of_mem_filter htr
        simp [hp1] at this
      · have hitr : i ∈ trimmableIndices msgs := by
          refine List.mem_filter.mpr ⟨List.mem_range.mpr hi, ?_⟩
          simp [hp]
        obtain ⟨k, hk⟩ := trimLoop_prefix
          (fun j => (count model [msgToDict (msgs.getD j (.system ""))] : Int))
          (maxT : Int) (trimmableIndices msgs) total
        have hkrem : removed = (trimmableIndices msgs).take k := by
          rw [hrem]; unfold removedIndices; exact hk
        have hPW : List.Pairwise (· < ·) (trimmableIndices msgs) :=
          List.Pairwise.sublist (List.filter_sublist _) (List.pairwise_lt_range _)
        have hsplit := List.take_append_drop k (trimmableIndices msgs)
        have hPW2 : List.Pairwise (· < ·)
            ((trimmableIndices msgs).take k ++ (trimmableIndices msgs).drop k) := by
          rw [hsplit]; exact hPW
        have hcross := (List.pairwise_append.mp hPW2).2.2
        have hidrop : i ∈ (trimmableIndices msgs).drop k := by
          have : i ∈ (trimmableIndices msgs).take k ++ (trimmableIndices msgs).drop k := by
            rw [hsplit]; exact hitr
          rcases List.mem_append.mp this with h1 | h2
          · exact absurd (hkrem ▸ h1) hiNot
          · exact h2
        have hi1take : i + 1 ∈ (trimmableIndices msgs).take k := hkrem ▸ hmem1
        have := hcross (i + 1) hi1take i hidrop
        omega

/-- C2 amended witness: in `c2WitnessMsgs` under a generous budget both
the assistant (index 0) and its tool result (index 1) are kept. -/
theorem c2_amended_tool_not_orphaned_witness :
    trimKeepsIndex fallbackCount "sys" c2WitnessMsgs "claude-sonnet-4-5-20250929"
      1000 1 = true :=
  (c2_amended_tool_not_orphaned fallbackCount "sys" c2WitnessMsgs
      "claude-sonnet-4-5-20250929" 1000).2
    0 "go" [searchCall] "s1" "result" rfl (by decide) rfl (by decide)

/-! ## C1 — tool-call / tool-result pairing -/

theorem amended_append (l : List Msg) (m : Msg)
    (hM : AmendedPairing l)
    (hlast : ∀ text tcs, l.getLast? = some (.assistant text tcs) → tcs ≠ [] →
      SuccOk tcs m) :
    AmendedPairing (l ++ [m]) := by
  intro i text tcs m' h1 hne h2
  by_cases hi : i + 1 < l.length
  · have hi0 : i < l.length := by omega
    rw [List.get?_append hi0] at h1
    rw [List.get?_append hi] at h2
    exact hM i text tcs m' h1 hne h2
  · by_cases hi2 : i + 1 = l.length
    · have hi0 : i < l.length := by omega
      rw [List.get?_append hi0] at h1
      have hm' : m' = m := by
        rw [hi2, List.get?_concat_length] at h2
        exact (Option.some.inj h2).symm
      have hgl : l.getLast? = some (.assistant text tcs) := by
        rw [List.getLast?_eq_get?]
        rw [show l.length - 1 = i from by omega]
        exact h1
      rw [hm']
      exact hlast text tcs hgl hne
    · have hnone : (l ++ [m]).get? (i + 1) = none := by
        rw [List.get?_eq_none]
        simp only [List.length_append, List.length_singleton]
        omega
      rw [hnone] at h2
      cases h2

theorem lastAIWithCalls_concat_human (l : List Msg) (t : String) :
    lastAIWithCalls (l ++ [.human t]) = lastAIWithCalls l := by
  simp [lastAIWithCalls, List.reverse_append]

theorem lastAIWithCalls_concat_tool (l : List Msg) (cid c : String) :
    lastAIWithCalls (l ++ [.tool cid c]) = lastAIWithCalls l := by
  simp [lastAIWithCalls, List.reverse_append]

theorem lastAIWithCalls_concat_assistant (l : List Msg) (t : String)
    (tcs : List ToolCall) (h : tcs ≠ []) :
    lastAIWithCalls (l ++ [.assistant t tcs]) = some tcs := by
  simp [lastAIWithCalls, List.reverse_append, h]

theorem lastAIWithCalls_concat_assistant_nil (l : List Msg) (t : String) :
    lastAIWithCalls (l ++ [.assistant t []]) = lastAIWithCalls l := by
  simp [lastAIWithCalls, List.reverse_append]

theorem proposalReviewCallId_concat_file (l : List Msg) (text : String)
    (t : ToolCall) (ht : strStartsWith t.name "propose_" = true) :
    proposalReviewCallId (l ++ [.assistant text [t]]) = t.id := by
  unfold proposalReviewCallId
  rw [lastAIWithCalls_concat_assistant l text [t] (by simp)]
  simp [List.find?, ht]

theorem commandReviewCallId_concat_cmd (l : List Msg) (text : String)
    (t : ToolCall) (ht : (t.name == "propose_command") = true) :
    commandReviewCallId (l ++ [.assistant text [t]]) = t.id := by
  unfold commandReviewCallId
  rw [lastAIWithCalls_concat_assistant l text [t] (by simp)]
  simp [List.find?, ht]

/-- The review call id recovered after appending a tool-calling assistant
is either the id of one of that assistant's own calls or the fallback
`"proposal-review"`. -/
theorem proposalReviewCallId_concat_cases (l : List Msg) (text : String)
    (tcs : List ToolCall) (hne : tcs ≠ []) :
    (∃ tc, tc ∈ tcs ∧ proposalReviewCallId (l ++ [.assistant text tcs]) = tc.id) ∨
    proposalReviewCallId (l ++ [.assistant text tcs]) = "proposal-review" := by
  unfold proposalReviewCallId
  rw [lastAIWithCalls_concat_assistant l text tcs hne]
  cases hf : tcs.find? (fun tc => strStartsWith tc.name "propose_") with
  | none => right; simp [hf]
  | some tc => left; exact ⟨tc, List.mem_of_find?_eq_some hf, by simp [hf]⟩

/-- The command-review analogue, with fallback `"command-review"`. -/
theorem commandReviewCallId_concat_cases (l : List Msg) (text : String)
    (tcs : List ToolCall) (hne : tcs ≠ []) :
    (∃ tc, tc ∈ tcs ∧ commandReviewCallId (l ++ [.assistant text tcs]) = tc.id) ∨
    commandReviewCallId (l ++ [.assistant text tcs]) = "command-review" := by
  unfold commandReviewCallId
  rw [lastAIWithCalls_concat_assistant l text tcs hne]
  cases hf : tcs.find? (fun tc => tc.name == "propose_command") with
  | none => right; simp [hf]
  | some tc => left; exact ⟨tc, List.mem_of_find?_eq_some hf, by simp [hf]⟩

theorem singleCall_append_left (l1 l2 : List Msg)
    (h : SingleCall (l1 ++ l2)) : SingleCall l1 := by
  unfold SingleCall at h ⊢
  rw [List.all_append] at h
  exact (Bool.and_eq_true_iff.mp h).1

theorem singleCall_concat_arity (l : List Msg) (t : String) (tcs : List ToolCall)
    (h : SingleCall (l ++ [.assistant t tcs])) : tcs.length ≤ 1 := by
  unfold SingleCall at h
  rw [List.all_append] at h
  have := (Bool.and_eq_true_iff.mp h).2
  simp [singleCallMsg] at this
  exact this

/-- The orchestrator always appends exactly the assistant response. -/
theorem runOrchestrator_messages (st : VocoState) (resp : AIResponse) :
    (runOrchestrator st resp).messages =
      st.messages ++ [.assistant resp.text resp.tool_calls] := by
  by_cases he : resp.tool_calls.isEmpty <;>
    simp [runOrchestrator, orchestrator_node, applyOrchUpdate, he]

theorem resumeProposalReview_messages (st : VocoState) (d : List ArgDict) :
    (resumeProposalReview st d).messages =
      st.messages ++ [.tool (proposalReviewCallId st.messages)
        (proposalSummary st.pending_proposals d)] := rfl

theorem resumeCommandReview_messages (st : VocoState) (d : List ArgDict) :
    (resumeCommandReview st d).messages =
      st.messages ++ [.tool (commandReviewCallId st.messages)
        (commandSummary st.pending_commands d)] := rfl

theorem isCommandCall_startsWith (t : ToolCall) (h : isCommandCall t = true) :
    strStartsWith t.name "propose_" = true := by
  simp [isCommandCall] at h
  rw [h]
  decide

theorem runOrch_nil_fields (st : VocoState) (resp : AIResponse)
    (h : resp.tool_calls = []) :
    (runOrchestrator st resp).pending_proposals = st.pending_proposals ∧
    (runOrchestrator st resp).pending_commands = st.pending_commands ∧
    (runOrchestrator st resp).pending_mcp_action = st.pending_mcp_action := by
  refine ⟨?_, ?_, ?_⟩ <;> simp [runOrchestrator, orchestrator_node, applyOrchUpdate, h]

theorem runOrch_cmd_fields (st : VocoState) (resp : AIResponse) (t : ToolCall)
    (h : resp.tool_calls = [t]) (ht : isCommandCall t = true) :
    (runOrchestrator st resp).pending_proposals = st.pending_proposals ∧
    (runOrchestrator st resp).pending_commands = [t.args] ∧
    (runOrchestrator st resp).pending_mcp_action = none := by
  have hname : t.name = "propose_command" := by simpa [isCommandCall] using ht
  have hf : isFileProposalCall t = false := by simp [isFileProposalCall, hname]
  have hm : isMcpCall t = false := by
    simp [isMcpCall, isCommandCall_startsWith t ht]
  refine ⟨?_, ?_, ?_⟩ <;>
    simp [runOrchestrator, orchestrator_node, applyOrchUpdate, partitionCalls_eq,
      h, ht, hf, hm, List.filter]

theorem runOrch_file_fields (st : VocoState) (resp : AIResponse) (t : ToolCall)
    (h : resp.tool_calls = [t]) (ht1 : isCommandCall t = false)
    (ht2 : strStartsWith t.name "propose_" = true) :
    (runOrchestrator st resp).pending_proposals = [t.args] ∧
    (runOrchestrator st resp).pending_commands = st.pending_commands ∧
    (runOrchestrator st resp).pending_mcp_action = none := by
  have hf : isFileProposalCall t = true := by
    simp [isFileProposalCall, isCommandCall] at ht1 ⊢
    exact ⟨ht1, ht2⟩
  have hm : isMcpCall t = false := by simp [isMcpCall, ht2]
  refine ⟨?_, ?_, ?_⟩ <;>
    simp [runOrchestrator, orchestrator_node, applyOrchUpdate, partitionCalls_eq,
      h, ht1, hf, hm, List.filter]

theorem runOrch_mcp_fields (st : VocoState) (resp : AIResponse) (t : ToolCall)
    (h : resp.tool_calls = [t]) (ht : strStartsWith t.name "propose_" = false) :
    (runOrchestrator st resp).pending_proposals = st.pending_proposals ∧
    (runOrchestrator st resp).pending_commands = st.pending_commands ∧
    (runOrchestrator st resp).pending_mcp_action = some t := by
  have hc : isCommandCall t = false := by
    by_cases hcc : isCommandCall t
    · exact absurd (isCommandCall_startsWith t hcc) (by simp [ht])
    · simpa using hcc
  have hf : isFileProposalCall t = false := by simp [isFileProposalCall, ht]
  have hm : isMcpCall t = true := by simp [isMcpCall, ht]
  refine ⟨?_, ?_, ?_⟩ <;>
    simp [runOrchestrator, orchestrator_node, applyOrchUpdate, partitionCalls_eq,
      h, hc, hf, hm, List.filter]

/-- `InvCore` is preserved by an orchestrator invocation, provided the
log does not end in a tool-calling assistant (true wherever the pipeline
invokes the model: after the Human append, after a review summary, and
after the ACK tool message). -/
theorem invcore_runOrch (st : VocoState) (resp : AIResponse)
    (h : InvCore st) (harity : resp.tool_calls.length ≤ 1)
    (hlast : ∀ text tcs, st.messages.getLast? = some (.assistant text tcs) →
      tcs = []) :
    InvCore (runOrchestrator st resp) := by
  obtain ⟨hM, _⟩ := h
  have hmsgs := runOrchestrator_messages st resp
  have hM' : AmendedPairing (runOrchestrator st resp).messages := by
    rw [hmsgs]
    refine amended_append _ _ hM ?_
    intro text tcs hl hne
    exact absurd (hlast text tcs hl) hne
  have hlast' : (runOrchestrator st resp).messages.getLast? =
      some (.assistant resp.text resp.tool_calls) := by
    rw [hmsgs, List.getLast?_concat]
  refine ⟨hM', ?_⟩
  intro a ha text2 tcs2 hl hne
  rw [hlast'] at hl
  obtain ⟨_, h2⟩ := Msg.assistant.inj (Option.some.inj hl)
  rw [← h2] at hne ⊢
  rcases hcase : resp.tool_calls with _ | ⟨t, rest⟩
  · rw [hcase] at hne
    exact absurd rfl hne
  · have hrest : rest = [] := by
      rw [hcase] at harity
      have h1 : rest.length + 1 ≤ 1 := by simpa using harity
      exact List.length_eq_zero.mp (by omega)
    subst hrest
    by_cases hc1 : isCommandCall t
    · obtain ⟨_, _, hf3⟩ := runOrch_cmd_fields st resp t hcase hc1
      rw [hf3] at ha
      cases ha
    · by_cases hc2 : strStartsWith t.name "propose_"
      · obtain ⟨_, _, hf3⟩ :=
          runOrch_file_fields st resp t hcase (by simpa using hc1) hc2
        rw [hf3] at ha
        cases ha
      · obtain ⟨_, _, hf3⟩ := runOrch_mcp_fields st resp t hcase (by simpa using hc2)
        rw [hf3] at ha
        obtain rfl := Option.some.inj ha
        exact List.mem_singleton_self t

theorem invcore_turnEntry (st : VocoState) (t : String) (h : InvCore st) :
    InvCore (turnEntry st t) := by
  obtain ⟨hM, _⟩ := h
  have hl : (turnEntry st t).messages.getLast? = some (.human t) :=
    List.getLast?_concat _
  refine ⟨?_, ?_⟩
  · exact amended_append _ _ hM
      (fun _ _ _ _ => Or.inr (Or.inr (Or.inr ⟨t, rfl⟩)))
  · intro a _ text tcs hgl hne
    rw [hl] at hgl
    simp at hgl

/-- Resuming `proposal_review_node` on a log that ends with an assistant
message preserves the invariant: the recovered call id is either one of
that assistant's own call ids or the fallback `"proposal-review"`, both
allowed by `SuccOk`. -/
theorem invcore_resumeP_shape (st : VocoState) (d : List ArgDict)
    (l : List Msg) (text : String) (tcs : List ToolCall)
    (hshape : st.messages = l ++ [.assistant text tcs])
    (h : InvCore st) : InvCore (resumeProposalReview st d) := by
  obtain ⟨hM, _⟩ := h
  have hmsgs := resumeProposalReview_messages st d
  have hlt : (resumeProposalReview st d).messages.getLast? =
      some (.tool (proposalReviewCallId st.messages)
        (proposalSummary st.pending_proposals d)) := by
    rw [hmsgs]
    exact List.getLast?_concat _
  refine ⟨?_, ?_⟩
  · rw [hmsgs]
    refine amended_append _ _ hM ?_
    intro text2 tcs2 hgl hne
    rw [hshape, List.getLast?_concat] at hgl
    obtain ⟨ht2, htc2⟩ := Msg.assistant.inj (Option.some.inj hgl)
    rw [hshape]
    rcases proposalReviewCallId_concat_cases l text tcs (by rw [htc2]; exact hne)
      with ⟨tc, hmem, hid⟩ | hid
    · exact Or.inl ⟨tc, proposalSummary st.pending_proposals d,
        by rw [← htc2]; exact hmem, by rw [hid]⟩
    · exact Or.inr (Or.inl ⟨proposalSummary st.pending_proposals d, by rw [hid]⟩)
  · intro a _ text2 tcs2 hgl hne
    rw [hlt] at hgl
    simp at hgl

/-- The command-review analogue of `invcore_resumeP_shape`. -/
theorem invcore_resumeC_shape (st : VocoState) (d : List ArgDict)
    (l : List Msg) (text : String) (tcs : List ToolCall)
    (hshape : st.messages = l ++ [.assistant text tcs])
    (h : InvCore st) : InvCore (resumeCommandReview st d) := by
  obtain ⟨hM, _⟩ := h
  have hmsgs := resumeCommandReview_messages st d
  have hlt : (resumeCommandReview st d).messages.getLast? =
      some (.tool (commandReviewCallId st.messages)
        (commandSummary st.pending_commands d)) := by
    rw [hmsgs]
    exact List.getLast?_concat _
  refine ⟨?_, ?_⟩
  · rw [hmsgs]
    refine amended_append _ _ hM ?_
    intro text2 tcs2 hgl hne
    rw [hshape, List.getLast?_concat] at hgl
    obtain ⟨ht2, htc2⟩ := Msg.assistant.inj (Option.some.inj hgl)
    rw [hshape]
    rcases commandReviewCallId_concat_cases l text tcs (by rw [htc2]; exact hne)
      with ⟨tc, hmem, hid⟩ | hid
    · exact Or.inl ⟨tc, commandSummary st.pending_commands d,
        by rw [← htc2]; exact hmem, by rw [hid]⟩
    · exact Or.inr (Or.inr (Or.inl ⟨commandSummary st.pending_commands d, by rw [hid]⟩))
  · intro a _ text2 tcs2 hgl hne
    rw [hlt] at hgl
    simp at hgl

/-- With a pending action set, the dispatch is exactly: append the
ACK/inline tool message, then run the orchestrator (the dict input
restart). -/
theorem dispatchStep_eq (st : VocoState) (content : String) (resp : AIResponse)
    (a : ToolCall) (hmcp : st.pending_mcp_action = some a) :
    dispatchStep st content resp =
      runOrchestrator { st with messages := st.messages ++ [.tool a.id content] }
        resp := by
  unfold dispatchStep
  rw [hmcp]

theorem invcore_dispatch (st : VocoState) (content : String) (resp : AIResponse)
    (h : InvCore st)
    (hsc : SingleCall (dispatchStep st content resp).messages) :
    InvCore (dispatchStep st content resp) := by
  rcases hmcp : st.pending_mcp_action with _ | a
  · have hd : dispatchStep st content resp = st := by
      unfold dispatchStep
      rw [hmcp]
    rw [hd]
    exact h
  · obtain ⟨hM, h5⟩ := h
    have heq := dispatchStep_eq st content resp a hmcp
    rw [heq] at hsc ⊢
    have hlt : (st.messages ++ [Msg.tool a.id content]).getLast? =
        some (.tool a.id content) := List.getLast?_concat _
    have h1 : InvCore { st with messages := st.messages ++ [.tool a.id content] } := by
      refine ⟨?_, ?_⟩
      · refine amended_append _ _ hM ?_
        intro text tcs hgl hne
        exact Or.inl ⟨a, content, h5 a hmcp text tcs hgl hne, rfl⟩
      · intro b _ text tcs hgl hne
        rw [hlt] at hgl
        simp at hgl
    have harity : resp.tool_calls.length ≤ 1 := by
      rw [runOrchestrator_messages] at hsc
      exact singleCall_concat_arity _ _ _ hsc
    refine invcore_runOrch _ resp h1 harity ?_
    intro text tcs hgl
    rw [hlt] at hgl
    simp at hgl

theorem runOrch_endsWithAssistant (st : VocoState) (resp : AIResponse) :
    EndsWithAssistant (runOrchestrator st resp) :=
  ⟨st.messages, resp.text, resp.tool_calls, runOrchestrator_messages st resp⟩

theorem invcore_stage25 (st : VocoState) (o : TurnOracle) (h : InvCore st)
    (hshape : EndsWithAssistant st)
    (hsc : SingleCall (turnStage25 st o).messages) :
    InvCore (turnStage25 st o) := by
  unfold turnStage25 at hsc ⊢
  cases hg : st.pending_proposals.isEmpty
  · rw [hg] at hsc
    simp only [Bool.not_false, if_pos] at hsc ⊢
    obtain ⟨l, text, tcs, hsh⟩ := hshape
    have h1 := invcore_resumeP_shape st o.pDecisions l text tcs hsh h
    have harity : o.resp2.tool_calls.length ≤ 1 := by
      rw [runOrchestrator_messages] at hsc
      exact singleCall_concat_arity _ _ _ hsc
    refine invcore_runOrch _ o.resp2 h1 harity ?_
    intro text2 tcs2 hgl
    rw [resumeProposalReview_messages, List.getLast?_concat] at hgl
    simp at hgl
  · rw [hg] at hsc
    simp only [Bool.not_true, Bool.false_eq_true, if_neg, not_false_iff] at hsc ⊢
    exact h

theorem stage25_endsWithAssistant (st : VocoState) (o : TurnOracle)
    (hshape : EndsWithAssistant st) : EndsWithAssistant (turnStage25 st o) := by
  unfold turnStage25
  cases hg : st.pending_proposals.isEmpty
  · simp only [Bool.not_false, if_pos]
    exact runOrch_endsWithAssistant _ o.resp2
  · simp only [Bool.not_true, Bool.false_eq_true, if_neg, not_false_iff]
    exact hshape

theorem invcore_stage26 (st : VocoState) (o : TurnOracle) (h : InvCore st)
    (hshape : EndsWithAssistant st)
    (hsc : SingleCall (turnStage26 st o).messages) :
    InvCore (turnStage26 st o) := by
  unfold turnStage26 at hsc ⊢
  by_cases hg : st.pending_proposals.isEmpty = true ∧
      st.pending_commands.isEmpty = false
  · rw [if_pos (by simp [hg.1, hg.2])] at hsc ⊢
    obtain ⟨l, text, tcs, hsh⟩ := hshape
    have h1 := invcore_resumeC_shape st o.cDecisions l text tcs hsh h
    have harity : o.resp3.tool_calls.length ≤ 1 := by
      rw [runOrchestrator_messages] at hsc
      exact singleCall_concat_arity _ _ _ hsc
    refine invcore_runOrch _ o.resp3 h1 harity ?_
    intro text2 tcs2 hgl
    rw [resumeCommandReview_messages, List.getLast?_concat] at hgl
    simp at hgl
  · rw [if_neg (by
      intro hx
      rcases Bool.and_eq_true_iff.mp hx with ⟨hx1, hx2⟩
      exact hg ⟨hx1, by simpa using hx2⟩)] at hsc ⊢
    exact h

theorem stage26_endsWithAssistant (st : VocoState) (o : TurnOracle)
    (hshape : EndsWithAssistant st) : EndsWithAssistant (turnStage26 st o) := by
  unfold turnStage26
  by_cases hg : st.pending_proposals.isEmpty = true ∧
      st.pending_commands.isEmpty = false
  · rw [if_pos (by simp [hg.1, hg.2])]
    exact runOrch_endsWithAssistant _ o.resp3
  · rw [if_neg (by
      intro hx
      rcases Bool.and_eq_true_iff.mp hx with ⟨hx1, hx2⟩
      exact hg ⟨hx1, by simpa using hx2⟩)]
    exact hshape

theorem invcore_stage3 (st : VocoState) (o : TurnOracle) (h : InvCore st)
    (hsc : SingleCall (turnStage3 st o).messages) :
    InvCore (turnStage3 st o) := by
  unfold turnStage3 at hsc ⊢
  by_cases hg : st.pending_mcp_action.isSome
  · rw [if_pos hg] at hsc ⊢
    exact invcore_dispatch st o.dispContent o.resp4 h hsc
  · rw [if_neg hg] at hsc ⊢
    exact h

theorem ext_trans {a b c : List Msg} (h1 : ∃ e, b = a ++ e)
    (h2 : ∃ e, c = b ++ e) : ∃ e, c = a ++ e := by
  obtain ⟨e1, he1⟩ := h1
  obtain ⟨e2, he2⟩ := h2
  exact ⟨e1 ++ e2, by rw [he2, he1, List.append_assoc]⟩

theorem singleCall_of_ext {a b : VocoState} (h : ∃ e, b.messages = a.messages ++ e)
    (hsc : SingleCall b.messages) : SingleCall a.messages := by
  obtain ⟨e, he⟩ := h
  rw [he] at hsc
  exact singleCall_append_left _ _ hsc

theorem runOrch_ext (st : VocoState) (resp : AIResponse) :
    ∃ e, (runOrchestrator st resp).messages = st.messages ++ e :=
  ⟨_, runOrchestrator_messages st resp⟩

theorem entry_ext (st : VocoState) (input : String) :
    ∃ e, (turnEntry st input).messages = st.messages ++ e :=
  ⟨[.human input], rfl⟩

theorem dispatch_ext (st : VocoState) (c : String) (r : AIResponse) :
    ∃ e, (dispatchStep st c r).messages = st.messages ++ e := by
  rcases hmcp : st.pending_mcp_action with _ | a
  · have hd : dispatchStep st c r = st := by
      unfold dispatchStep
      rw [hmcp]
    rw [hd]
    exact ⟨[], by simp⟩
  · rw [dispatchStep_eq st c r a hmcp]
    exact ext_trans (⟨[Msg.tool a.id c], rfl⟩ :
      ∃ e, ({ st with messages := st.messages ++ [Msg.tool a.id c] } :
        VocoState).messages = st.messages ++ e) (runOrch_ext _ r)

theorem stage25_ext (st : VocoState) (o : TurnOracle) :
    ∃ e, (turnStage25 st o).messages = st.messages ++ e := by
  unfold turnStage25
  cases hg : st.pending_proposals.isEmpty
  · simp only [hg, Bool.not_false, if_pos]
    exact ext_trans ⟨_, resumeProposalReview_messages st o.pDecisions⟩
      (runOrch_ext _ o.resp2)
  · simp only [hg, Bool.not_true, if_neg, Bool.false_eq_true, not_false_iff]
    exact ⟨[], by simp⟩

theorem stage26_ext (st : VocoState) (o : TurnOracle) :
    ∃ e, (turnStage26 st o).messages = st.messages ++ e := by
  unfold turnStage26
  by_cases hg : st.pending_proposals.isEmpty = true ∧
      st.pending_commands.isEmpty = false
  · rw [if_pos (by simp [hg.1, hg.2])]
    exact ext_trans ⟨_, resumeCommandReview_messages st o.cDecisions⟩
      (runOrch_ext _ o.resp3)
  · rw [if_neg (by
      intro hx
      rcases Bool.and_eq_true_iff.mp hx with ⟨hx1, hx2⟩
      exact hg ⟨hx1, by simpa using hx2⟩)]
    exact ⟨[], by simp⟩

theorem stage3_ext (st : VocoState) (o : TurnOracle) :
    ∃ e, (turnStage3 st o).messages = st.messages ++ e := by
  unfold turnStage3
  by_cases hg : st.pending_mcp_action.isSome
  · rw [if_pos hg]
    exact dispatch_ext st o.dispContent o.resp4
  · rw [if_neg hg]
    exact ⟨[], by simp⟩

theorem runTurn_ext (st : VocoState) (o : TurnOracle) :
    ∃ e, (runTurn st o).messages = st.messages ++ e := by
  unfold runTurn
  exact ext_trans (ext_trans (ext_trans
    (ext_trans (entry_ext st o.input) (runOrch_ext _ o.resp1))
    (stage25_ext _ o)) (stage26_ext _ o)) (stage3_ext _ o)

/-- The pipeline invariant holds in every reachable state whose log
carries at most one tool call per assistant message. -/
theorem reachable_invariant (st : VocoState) (h : Reachable st) :
    SingleCall st.messages → InvCore st := by
  induction h with
  | init =>
    intro _
    refine ⟨?_, ?_⟩
    · intro i text tcs m h1 hne h2
      cases h1
    · intro a ha
      cases ha
  | step st o hs ih =>
    intro hsc
    have hscOld : SingleCall st.messages :=
      singleCall_of_ext (runTurn_ext st o) hsc
    have hsc26 : SingleCall
        (turnStage26 (turnStage25 (runOrchestrator (turnEntry st o.input)
          o.resp1) o) o).messages :=
      singleCall_of_ext (stage3_ext _ o) hsc
    have hsc25 : SingleCall
        (turnStage25 (runOrchestrator (turnEntry st o.input) o.resp1) o).messages :=
      singleCall_of_ext (stage26_ext _ o) hsc26
    have hsc1 : SingleCall
        (runOrchestrator (turnEntry st o.input) o.resp1).messages :=
      singleCall_of_ext (stage25_ext _ o) hsc25
    have h0 : InvCore (turnEntry st o.input) :=
      invcore_turnEntry st o.input (ih hscOld)
    have harity : o.resp1.tool_calls.length ≤ 1 := by
      rw [runOrchestrator_messages] at hsc1
      exact singleCall_concat_arity _ _ _ hsc1
    have hlastE : ∀ text tcs, (turnEntry st o.input).messages.getLast? =
        some (.assistant text tcs) → tcs = [] := by
      intro text tcs hgl
      rw [show (turnEntry st o.input).messages.getLast? =
        some (.human o.input) from List.getLast?_concat _] at hgl
      simp at hgl
    have h1 := invcore_runOrch _ o.resp1 h0 harity hlastE
    have hshape1 := runOrch_endsWithAssistant (turnEntry st o.input) o.resp1
    have h25 := invcore_stage25 _ o h1 hshape1 hsc25
    have hshape25 := stage25_endsWithAssistant _ o hshape1
    have h26 := invcore_stage26 _ o h25 hshape25 hsc26
    exact invcore_stage3 _ o h26 hsc

/-- C1 counterexample: after one reachable turn in which the model emits
two non-proposal tool calls (`"s1"`, `"s2"`) in a single assistant
message, the Instant-ACK appends one Tool message with call id `"s1"`
only, so the assistant message is not immediately followed by a Tool
message with call id `"s2"` — and no Tool message with call id `"s2"`
appears anywhere in the log. -/
theorem c1_counterexample :
    Reachable c1State ∧ ¬ StrictPairing c1State.messages ∧
    (∀ c, Msg.tool "s2" c ∉ c1State.messages) := by
  refine ⟨Reachable.step initState c1Oracle Reachable.init, ?_, ?_⟩
  · intro hsp
    have h1 : c1State.messages.get? 1 =
        some (.assistant "" [searchCall, readCall]) := by decide
    have h2 : c1State.messages.get? 2 =
        some (.tool "s1" (ackContent "j1")) := by decide
    obtain ⟨c, hc⟩ := hsp 1 "" [searchCall, readCall] readCall
      (.tool "s1" (ackContent "j1")) h1 (by decide) h2
    simp [readCall] at hc
  · intro c hc
    have hlog : c1State.messages =
        [.human "find and read", .assistant "" [searchCall, readCall],
         .tool "s1" (ackContent "j1"), .assistant "on it" []] := by decide
    rw [hlog] at hc
    simp [ackContent] at hc

/-- The fallback disjunct of `SuccOk` is not vacuous on the real
pipeline: in the stale-review scenario the dict input of the second turn
discards the pending review task, the orchestrator answers with a single
`search_codebase` call, and the stale proposal list routes the run back
to `proposal_review_node`, whose summary `ToolMessage` carries the
fallback call id `"proposal-review"` directly after that tool-calling
assistant message. -/
theorem stale_review_fallback_reachable :
    Reachable c1StaleState ∧ SingleCall c1StaleState.messages ∧
    c1StaleState.messages.get? 5 = some (.assistant "" [searchCall]) ∧
    c1StaleState.messages.get? 6 = some (.tool "proposal-review"
      "Proposal review results:\n- NOTES.md: rejected") := by
  refine ⟨Reachable.step _ c1StaleOracleB
    (Reachable.step initState c1StaleOracleA Reachable.init), ?_, ?_, ?_⟩
  · unfold SingleCall
    decide
  · decide
  · decide

/-- C1 amended: in every reachable log in which each assistant message
carries at most one tool call, every tool-calling assistant message that
has a successor is immediately followed by one of: a Tool message whose
call id is the id of one of its calls; a review-summary Tool message
with the fallback call id `"proposal-review"` or `"command-review"`
(a stale review interrupt resumed while the last tool-calling assistant
has no matching `propose_*` call — see
`stale_review_fallback_reachable`); or the Human message opening the
next turn (deferred work).  With several tool calls in one response the
pairing fails outright, as the counterexample shows. -/
theorem c1_amended_pairing (st : VocoState) (h : Reachable st)
    (hsc : SingleCall st.messages) : AmendedPairing st.messages :=
  (reachable_invariant st h hsc).1

/-- C1 amended witness: one reachable single-call turn through the
Instant-ACK path satisfies the amended pairing. -/
theorem c1_amended_pairing_witness : AmendedPairing c1SingleState.messages :=
  c1_amended_pairing c1SingleState
    (Reachable.step initState c1SingleOracle Reachable.init)
    (by unfold SingleCall; decide)

end Voco
